import Mathlib

/-!
Verification of the row-normalization and canonical-date filtering engine of
`src/src/main.rs` (an AWS-Lambda Excel-to-CSV loader).

The shallow embedding below translates, from the source:
  * `calamine::DataType` (the spreadsheet cell union) as `DataType`;
  * the custom serde deserializers `de_opt_f64` (main.rs:32-43) and
    `de_date` (main.rs:45-54);
  * the row shape `RawExcelRow` (main.rs:22-30) and the row decode performed
    by serde on the fixed column order `["location","metric","value","date"]`
    (main.rs:20, 98-99) as `decodeRow`;
  * the core function `excel_to_csv_string` (main.rs:91-126), including the
    CSV encoding performed by `csv::Writer` with automatic header row and
    `QuoteStyle::Necessary` quoting.

Modelling conventions, stated once:
  * `f64` payloads are modelled by `Int` (`F64`).  The engine never performs
    floating-point arithmetic on values - it only carries them, renders them
    and (in the round-trip property) parses them back - so the only facts the
    claims use are decidable equality and an injective decimal rendering,
    which `Int` provides.  The cast `i as f64` (main.rs:40) becomes `intToF64`.
  * `chrono::NaiveDate` is modelled as a year/month/day triple `Date`; its
    serde rendering is the ISO `%Y-%m-%d` zero-padded format.
  * The panic of `Option::unwrap` on an empty row iterator (main.rs:105) is
    modelled by the explicit outcome `EngineError.unwrapNone`, so that the
    crash is distinguishable from the structured error return
    `EngineError.firstRowError` produced by the `?` operator on the same line.
  * The `println!` report of a failed row in the loop (main.rs:119) is
    modelled as the `reports` field of the engine output; the rows written to
    the `csv::Writer` are the `retained` field, and `data`, `locations`,
    `canonical_date` are the triple the Rust function returns.
-/

/-- Stand-in for `f64` payloads; see the modelling conventions above. -/
abbrev F64 := Int

/-- The cast `i as f64` of main.rs:40. -/
def intToF64 (i : Int) : F64 := i

/-- Calendar date (`chrono::NaiveDate`): year, month, day, no time component. -/
structure Date where
  y : Nat
  m : Nat
  d : Nat
deriving DecidableEq, Repr

/-- `calamine::CellErrorType`: the payload of an error cell.  `de_opt_f64`
matches it with a wildcard, so only its existence matters. -/
inductive CellErrorType where
  | div0
  | na
  | name
  | null
  | num
  | ref
  | value
  | gettingData
deriving DecidableEq, Repr

/-- `calamine::DataType`: the loosely-typed spreadsheet cell union over
empty, error, integer, float, text, boolean and date-carrying cells.  The
date-carrying variant holds the `Date` that `DataType::as_date` would
produce. -/
inductive DataType where
  | Int (i : Int)
  | Float (f : F64)
  | String (s : String)
  | Bool (b : Bool)
  | DateTime (d : Date)
  | Error (e : CellErrorType)
  | Empty
deriving DecidableEq, Repr

/-- Row-local decode errors: a required text field (`location`/`metric`)
missing or of the wrong cell type, or a date cell that does not carry a
date (`serde::de::Error::custom("Invalid Date")`, main.rs:51). -/
inductive DecodeError where
  | missingField
  | invalidDate
deriving DecidableEq, Repr

/-- `de_opt_f64` (main.rs:32-43): the value-cell coercion.  Every match arm
of the source returns `Ok`, so the translation is a total function into
`Option F64`: error cells and every non-numeric cell map to `none`, float
and integer cells to `some`. -/
def de_opt_f64 : DataType → Option F64
  | .Error _ => none
  | .Float f => some f
  | .Int i => some (intToF64 i)
  | _ => none

/-- `de_date` (main.rs:45-54): `DataType::as_date().ok_or("Invalid Date")`.
Only a cell already carrying date semantics converts; anything else is the
row-level failure `invalidDate`. -/
def de_date : DataType → Except DecodeError Date
  | .DateTime d => .ok d
  | _ => .error .invalidDate

/-- Deserializing a plain `String` field (`location`, `metric`) from a cell,
as calamine's range deserializer does: a text cell yields its text, any
other cell is a hard decode failure. -/
def asText : DataType → Except DecodeError String
  | .String s => .ok s
  | _ => .error .missingField

/-- `RawExcelRow` (main.rs:22-30): the canonical row shape. -/
structure RawExcelRow where
  location : String
  metric : String
  value : Option F64
  date : Date
deriving DecidableEq, Repr

/-- One decoded worksheet row: either a valid `RawExcelRow` or the decode
error serde reported for it. -/
abbrev DecodedRow := Except DecodeError RawExcelRow

/-- The row decode performed by serde deserialization of `RawExcelRow` from
one worksheet row under the fixed column order
`[location, metric, value, date]` (main.rs:20-30, 98-99): fields are decoded
in struct order and the first failure wins; the `value` field uses the total
coercion `de_opt_f64` and cannot fail. -/
def decodeRow (c₁ c₂ c₃ c₄ : DataType) : Except DecodeError RawExcelRow :=
  match asText c₁ with
  | .error e => .error e
  | .ok location =>
    match asText c₂ with
    | .error e => .error e
    | .ok metric =>
      let value := de_opt_f64 c₃
      match de_date c₄ with
      | .error e => .error e
      | .ok date => .ok ⟨location, metric, value, date⟩

/-- The outcome of `excel_to_csv_string` when it produces no batch:
`unwrapNone` models the panic of `iter_result.next().unwrap()` on an empty
row iterator (main.rs:105), `firstRowError` the error return of the `?`
operator on the same line when the first row fails to decode. -/
inductive EngineError where
  | unwrapNone
  | firstRowError (e : DecodeError)
deriving DecidableEq, Repr

/-! ### CSV rendering (`csv::Writer` with serde `Serialize`) -/

/-- Decimal digits of `n`, most significant first; fuel-structured so the
kernel can evaluate it. -/
def renderNatAux : Nat → Nat → List Char
  | 0, _ => []
  | fuel + 1, n =>
    if n < 10 then [Nat.digitChar n]
    else renderNatAux fuel (n / 10) ++ [Nat.digitChar (n % 10)]

/-- Decimal rendering of a natural number. -/
def renderNat (n : Nat) : List Char := renderNatAux (n + 1) n

/-- Decimal rendering of an integer (the rendering `csv` gives a numeric
value; under the `F64 := Int` convention this stands for the ryu rendering
of an `f64`). -/
def renderInt (v : Int) : List Char :=
  if v < 0 then '-' :: renderNat v.natAbs else renderNat v.toNat

/-- serde rendering of `Option<f64>`: `None` is an empty field, `Some v`
the numeral of `v`. -/
def renderOptValue : Option F64 → List Char
  | none => []
  | some v => renderInt v

/-- Left-pad a rendering with zeros to width `w` (`%Y` pads to 4, `%m` and
`%d` to 2). -/
def padZeros (w : Nat) (cs : List Char) : List Char :=
  List.replicate (w - cs.length) '0' ++ cs

/-- The serde rendering of `chrono::NaiveDate`: the fixed zero-padded ISO
`YYYY-MM-DD` format. -/
def renderDate (dt : Date) : List Char :=
  padZeros 4 (renderNat dt.y) ++ '-' :: padZeros 2 (renderNat dt.m)
    ++ '-' :: padZeros 2 (renderNat dt.d)

/-- A character that forces `csv`'s `QuoteStyle::Necessary` to quote a
field: the delimiter, the quote, or a record-terminator character. -/
def isSpecialChar (c : Char) : Bool :=
  c == ',' || c == '"' || c == '\n' || c == '\r'

/-- Double every quote inside a quoted field, as `csv` does. -/
def escapeQuotes : List Char → List Char
  | [] => []
  | c :: rest => if c == '"' then '"' :: '"' :: escapeQuotes rest
    else c :: escapeQuotes rest

/-- `csv` field encoding under `QuoteStyle::Necessary`: a field is written
raw unless it contains a special character, in which case it is wrapped in
quotes with inner quotes doubled. -/
def encodeField (cs : List Char) : List Char :=
  if cs.any isSpecialChar then '"' :: escapeQuotes cs ++ ['"'] else cs

/-- The characters of one CSV record for a row, terminated by `\n`
(`csv::Writer`'s default terminator), fields in the struct order
`location, metric, value, date`. -/
def rowLineChars (r : RawExcelRow) : List Char :=
  encodeField r.location.toList ++ ',' :: encodeField r.metric.toList
    ++ ',' :: encodeField (renderOptValue r.value)
    ++ ',' :: encodeField (renderDate r.date) ++ ['\n']

/-- The header row `csv::Writer` writes automatically on the first
`serialize` call: the `RawExcelRow` field names in struct order. -/
def headerChars : List Char := "location,metric,value,date\n".toList

/-- The full text accumulated in the `csv::Writer`: header first (written
with the first serialized row, and a row is always serialized), then one
line per serialized row in order. -/
def csvEncodeChars (rows : List RawExcelRow) : List Char :=
  headerChars ++ (rows.map rowLineChars).flatten

/-! ### The canonicalization and filter engine -/

/-- The observable result of `excel_to_csv_string`: `data`, `locations` and
`canonical_date` are the triple the Rust function returns; `retained` is the
sequence of rows serialized into the writer (in order), and `reports` the
`(printed index, error)` pairs emitted by the `println!` of main.rs:119. -/
structure EngineOutput where
  data : String
  locations : Finset String
  canonical_date : Date
  retained : List RawExcelRow
  reports : List (Nat × DecodeError)
deriving DecidableEq

/-- The `for (index, row) in iter_result.enumerate()` loop of
main.rs:111-121, threading the `locations` set and the enumerate counter
`i`: a row that decodes and matches the canonical date is retained and its
location inserted; a row that decodes to a different date is skipped; a row
that fails to decode is reported as `(i + 2, error)`. Returns (serialized
rows, final locations, reports). -/
def processRows (canonical_date : Date) (locs : Finset String) (i : Nat) :
    List DecodedRow → List RawExcelRow × Finset String × List (Nat × DecodeError)
  | [] => ([], locs, [])
  | .ok r :: rest =>
    if r.date = canonical_date then
      let out := processRows canonical_date (insert r.location locs) (i + 1) rest
      (r :: out.1, out.2.1, out.2.2)
    else
      processRows canonical_date locs (i + 1) rest
  | .error e :: rest =>
    let out := processRows canonical_date locs (i + 1) rest
    (out.1, out.2.1, (i + 2, e) :: out.2.2)

/-- `excel_to_csv_string` (main.rs:91-126) on the decoded row sequence of the
`data` worksheet: `iter_result.next().unwrap()?` takes the literal first row
(panicking on an empty iterator, returning the decode error if the first row
is malformed), makes its date the canonical date, inserts its location,
serializes it, then runs the loop over the remaining rows. -/
def excel_to_csv_string (rows : List DecodedRow) : Except EngineError EngineOutput :=
  match rows with
  | [] => .error .unwrapNone
  | .error e :: _ => .error (.firstRowError e)
  | .ok first_row :: rest =>
    let canonical_date := first_row.date
    let locs₀ : Finset String := insert first_row.location ∅
    let out := processRows canonical_date locs₀ 0 rest
    let retained := first_row :: out.1
    .ok { data := String.mk (csvEncodeChars retained)
          locations := out.2.1
          canonical_date := canonical_date
          retained := retained
          reports := out.2.2 }

/-! ### Reference functions used to state the properties -/

/-- The successfully decoded rows of an input sequence, in order. -/
def okRows (rows : List DecodedRow) : List RawExcelRow :=
  rows.filterMap fun r => match r with | .ok a => some a | .error _ => none

/-- The reports the loop emits when started with enumerate counter `i`:
one `(j + 2, e)` pair for the failing row at position `j - i` of the
remainder, in order. -/
def reportsFrom (i : Nat) : List DecodedRow → List (Nat × DecodeError)
  | [] => []
  | .ok _ :: rest => reportsFrom (i + 1) rest
  | .error e :: rest => (i + 2, e) :: reportsFrom (i + 1) rest

/-- The reports for the rows after the first, as printed: the row at
position `j` (0-based) of the remainder is reported with index `j + 2`,
i.e. its 1-based position among the data rows, the numbering that accounts
for the header row. -/
def reportsOf (rows : List DecodedRow) : List (Nat × DecodeError) :=
  reportsFrom 0 rows

/-! ### The round-trip reader

Modelled from the spec: the spec's round-trip property feeds the Tabular
Encoder's output back through the Row Decoder with the same fixed column
order `[location, metric, value, date]`.  The worksheet reader that turns
the CSV text back into typed cells is not part of the repository (the
repository's own test only compares the text with itself), so it is
modelled here: the text is split into lines at the record terminator, the
header line is skipped, each line is split into fields at the delimiter,
and each field becomes the cell a spreadsheet reader would present for its
column - text cells for the two text columns, an empty or numeric cell for
the value column, a date-carrying cell for the date column.  The typed
fields are then decoded by `decodeRow`, the decoder translated from the
source. -/

/-- Numeric value of a decimal digit character. -/
def charVal (c : Char) : Nat := c.toNat - '0'.toNat

/-- Parse a non-empty all-digit field as a natural number. -/
def parseNat (cs : List Char) : Option Nat :=
  if cs = [] then none
  else if cs.all Char.isDigit then
    some (cs.foldl (fun a c => a * 10 + charVal c) 0)
  else none

/-- Parse an optionally `-`-signed decimal field as an integer. -/
def parseInt (cs : List Char) : Option Int :=
  if cs.head? = some '-' then (parseNat cs.tail).map (fun n => -(n : Int))
  else (parseNat cs).map (fun n => (n : Int))

/-- Split a character list at every occurrence of `sep`; always returns at
least one (possibly empty) chunk. -/
def splitOnChar (sep : Char) : List Char → List (List Char)
  | [] => [[]]
  | c :: rest =>
    if c = sep then [] :: splitOnChar sep rest
    else
      match splitOnChar sep rest with
      | [] => [[c]]
      | h :: t => (c :: h) :: t

/-- Parse a `YYYY-MM-DD` field as a `Date`. -/
def parseDate (cs : List Char) : Option Date :=
  match splitOnChar '-' cs with
  | [a, b, c] =>
    match parseNat a, parseNat b, parseNat c with
    | some y, some m, some d => some ⟨y, m, d⟩
    | _, _, _ => none
  | _ => none

/-- Modelled from the spec: the cell a reader presents for a text column. -/
def fieldCellText (f : List Char) : DataType := .String (String.mk f)

/-- Modelled from the spec: the cell a reader presents for the numeric value
column - empty field as an empty cell, numeral as a numeric cell. -/
def fieldCellValue (f : List Char) : DataType :=
  if f = [] then .Empty
  else
    match parseInt f with
    | some v => .Float v
    | none => .String (String.mk f)

/-- Modelled from the spec: the cell a reader presents for the date
column - a well-formed `YYYY-MM-DD` field as a date-carrying cell. -/
def fieldCellDate (f : List Char) : DataType :=
  match parseDate f with
  | some d => .DateTime d
  | none => .String (String.mk f)

/-- Decode one CSV data line through the Row Decoder under the fixed column
order. -/
def decodeLine (line : List Char) : Except DecodeError RawExcelRow :=
  match splitOnChar ',' line with
  | [l, m, v, d] =>
    decodeRow (fieldCellText l) (fieldCellText m) (fieldCellValue v) (fieldCellDate d)
  | _ => .error .missingField

/-- Decode a whole CSV text through the Row Decoder: split into lines, skip
the header line and the empty chunk after the final terminator, decode each
data line. -/
def decodeCsv (s : String) : List (Except DecodeError RawExcelRow) :=
  (((splitOnChar '\n' s.toList).drop 1).dropLast).map decodeLine

/-- A field whose text triggers no CSV quoting: the regime in which the
round-trip reader above is an exact inverse of the encoder. -/
def plainText (s : String) : Bool := !(s.toList.any isSpecialChar)

/-- The character content of one CSV record before the terminator. -/
def rowBodyChars (r : RawExcelRow) : List Char :=
  encodeField r.location.toList ++ ',' :: encodeField r.metric.toList
    ++ ',' :: encodeField (renderOptValue r.value)
    ++ ',' :: encodeField (renderDate r.date)

/-! ### Concrete inputs used by the witnesses (the spec's §8 scenario) -/

def sampleRow1 : RawExcelRow := ⟨"UK", "sales", some 10, ⟨2020, 2, 1⟩⟩

def sampleRow2 : RawExcelRow := ⟨"FR", "sales", none, ⟨2020, 2, 1⟩⟩

def sampleRow3 : RawExcelRow := ⟨"DE", "sales", some 5, ⟨2020, 2, 2⟩⟩

def sampleRest : List DecodedRow := [.ok sampleRow2, .ok sampleRow3, .error .invalidDate]

def sampleRows : List DecodedRow := .ok sampleRow1 :: sampleRest

/-- The engine's output on `sampleRows` (it succeeds, so the default is
never used). -/
def sampleOut : EngineOutput :=
  (excel_to_csv_string sampleRows).toOption.getD ⟨"", ∅, ⟨0, 0, 0⟩, [], []⟩

/-! ### Characterization of the engine loop -/

lemma processRows_retained (c : Date) (locs : Finset String) (i : Nat)
    (rest : List DecodedRow) :
    (processRows c locs i rest).1 = (okRows rest).filter (fun r => r.date == c) := by
  induction rest generalizing locs i with
  | nil => simp [processRows, okRows]
  | cons hd tl ih =>
    cases hd with
    | ok r =>
      by_cases h : r.date = c
      · simp [processRows, okRows, List.filter_cons, h, ih]
      · simp [processRows, okRows, List.filter_cons, h, ih]
    | error e => simp [processRows, okRows, ih]

lemma processRows_locations (c : Date) (locs : Finset String) (i : Nat)
    (rest : List DecodedRow) :
    (processRows c locs i rest).2.1 =
      locs ∪ ((processRows c locs i rest).1.map (fun r => r.location)).toFinset := by
  induction rest generalizing locs i with
  | nil => simp [processRows]
  | cons hd tl ih =>
    cases hd with
    | ok r =>
      by_cases h : r.date = c
      · simp only [processRows, h, if_true]
        rw [ih]
        simp [Finset.insert_union, Finset.union_insert]
      · simp only [processRows, h, if_false]
        exact ih _ _
    | error e =>
      simp only [processRows]
      exact ih _ _

lemma processRows_reports (c : Date) (locs : Finset String) (i : Nat)
    (rest : List DecodedRow) :
    (processRows c locs i rest).2.2 = reportsFrom i rest := by
  induction rest generalizing locs i with
  | nil => simp [processRows, reportsFrom]
  | cons hd tl ih =>
    cases hd with
    | ok r =>
      by_cases h : r.date = c
      · simp [processRows, reportsFrom, h, ih]
      · simp [processRows, reportsFrom, h, ih]
    | error e => simp [processRows, reportsFrom, ih]

/-- Full characterization of a successful engine run: success happens exactly
when the input starts with a well-formed row, and then every output field is
determined. -/
lemma engine_ok_elim (rows : List DecodedRow) (out : EngineOutput)
    (h : excel_to_csv_string rows = .ok out) :
    ∃ first rest, rows = .ok first :: rest ∧
      out.canonical_date = first.date ∧
      out.retained = first :: (okRows rest).filter (fun r => r.date == first.date) ∧
      out.locations = (out.retained.map (fun r => r.location)).toFinset ∧
      out.reports = reportsFrom 0 rest ∧
      out.data = String.mk (csvEncodeChars out.retained) := by
  match rows with
  | [] => simp [excel_to_csv_string] at h
  | .error e :: rest => simp [excel_to_csv_string] at h
  | .ok first :: rest =>
    refine ⟨first, rest, rfl, ?_⟩
    simp only [excel_to_csv_string] at h
    injection h with h
    subst h
    simp only [processRows_retained, processRows_locations, processRows_reports]
    simp [Finset.insert_eq]

/-- A retained row is a subsequence of the successfully decoded rows. -/
lemma filter_okRows_sublist (p : RawExcelRow → Bool) :
    ∀ l : List DecodedRow, List.Sublist (((okRows l).filter p).map Except.ok) l := by
  intro l
  induction l with
  | nil => simp [okRows]
  | cons hd tl ih =>
    cases hd with
    | ok r =>
      simp only [okRows, List.filterMap_cons] at *
      by_cases h : p r
      · simpa [List.filter_cons, h] using List.Sublist.cons₂ (Except.ok r) ih
      · simpa [List.filter_cons, h] using List.Sublist.cons (Except.ok r) ih
    | error e =>
      simp only [okRows, List.filterMap_cons] at *
      exact List.Sublist.cons _ ih

/-- A failing row at position `j` of the remainder is reported with index
`i + j + 2` when the loop starts with enumerate counter `i`. -/
lemma reportsFrom_mem :
    ∀ (l : List DecodedRow) (i j : Nat) (e : DecodeError),
      l[j]? = some (.error e) → (i + j + 2, e) ∈ reportsFrom i l := by
  intro l
  induction l with
  | nil => intro i j e h; simp at h
  | cons hd tl ih =>
    intro i j e h
    cases j with
    | zero =>
      simp only [List.getElem?_cons_zero, Option.some.injEq] at h
      cases hd with
      | ok r => simp at h
      | error e' =>
        simp only [Except.error.injEq] at h
        subst h
        simp [reportsFrom]
    | succ j' =>
      simp only [List.getElem?_cons_succ] at h
      have := ih (i + 1) j' e h
      cases hd with
      | ok r =>
        simpa [reportsFrom, Nat.add_comm, Nat.add_assoc, Nat.add_left_comm] using this
      | error e' =>
        simp only [reportsFrom, List.mem_cons]
        right
        simpa [Nat.add_comm, Nat.add_assoc, Nat.add_left_comm] using this

/-- Numerals are never empty. -/
lemma renderNatAux_ne_nil (fuel n : Nat) : renderNatAux (fuel + 1) n ≠ [] := by
  simp only [renderNatAux]
  by_cases h : n < 10 <;> simp [h]

lemma renderNat_ne_nil (n : Nat) : renderNat n ≠ [] := renderNatAux_ne_nil n n

/-! ### Claims -/

/-- C1 (counterexample): the claim says rows before the first successfully
decoded row are consumed without aborting the batch.  They are not: on the
input `[error, ok]`, which contains a successfully decoded row, the engine
aborts with the first row's decode error (`iter_result.next().unwrap()?`,
main.rs:105) instead of producing a batch with that row's date as canonical
date. -/
theorem c1_counterexample :
    okRows [Except.error DecodeError.invalidDate, Except.ok sampleRow1] = [sampleRow1] ∧
    excel_to_csv_string [Except.error DecodeError.invalidDate, Except.ok sampleRow1] =
      Except.error (EngineError.firstRowError DecodeError.invalidDate) :=
  ⟨rfl, rfl⟩

/-- C1 (amended): for every input whose *first* row decodes successfully,
the engine's canonical date is that first row's date, and that row is always
retained at the head of the encoded output with its location added to the
locations set.  (A decode failure in the first position aborts the batch,
so "first successfully decoded row" holds only when it is the literal first
row.) -/
theorem c1_canonical_date_first_row (first : RawExcelRow) (rest : List DecodedRow)
    (out : EngineOutput)
    (h : excel_to_csv_string (.ok first :: rest) = .ok out) :
    out.canonical_date = first.date ∧
    out.retained.head? = some first ∧
    first.location ∈ out.locations := by
  obtain ⟨f, r, heq, hcanon, hret, hlocs, -, -⟩ := engine_ok_elim _ _ h
  injection heq with h1 h2
  injection h1 with h1
  subst h1
  subst h2
  refine ⟨hcanon, by simp [hret], ?_⟩
  rw [hlocs, hret]
  simp

/-- C1 (witness): the amended theorem applied to the spec's §8 scenario. -/
theorem c1_witness :
    sampleOut.canonical_date = sampleRow1.date ∧
    sampleOut.retained.head? = some sampleRow1 ∧
    sampleRow1.location ∈ sampleOut.locations :=
  c1_canonical_date_first_row sampleRow1 sampleRest sampleOut rfl

/-- C2 (counterexample): the claim says an input with zero data rows, or in
which no data row decodes successfully, fails with the structured error
`EmptyOrAllInvalid`.  The code has no such error value: on zero rows it
panics (`Option::unwrap` on `None`, main.rs:105, modelled by `unwrapNone`),
and on an input whose rows all fail to decode it returns the first row's own
decode error. -/
theorem c2_counterexample :
    excel_to_csv_string [] = Except.error EngineError.unwrapNone ∧
    excel_to_csv_string [Except.error DecodeError.missingField] =
      Except.error (EngineError.firstRowError DecodeError.missingField) :=
  ⟨rfl, rfl⟩

/-- C2 (amended): an input with zero data rows crashes the engine (an
`unwrap` panic, not a returned error value); an input whose first row fails
to decode - in particular one in which no row decodes successfully - makes
the engine return that row's decode error.  In both cases no output artifact
is produced. -/
theorem c2_empty_or_invalid_behaviour :
    excel_to_csv_string [] = Except.error EngineError.unwrapNone ∧
    ∀ (e : DecodeError) (rest : List DecodedRow),
      excel_to_csv_string (.error e :: rest) =
        Except.error (EngineError.firstRowError e) :=
  ⟨rfl, fun _ _ => rfl⟩

/-- C2 (witness): the amended theorem applied to an all-invalid input. -/
theorem c2_witness :
    excel_to_csv_string [Except.error DecodeError.invalidDate] =
      Except.error (EngineError.firstRowError DecodeError.invalidDate) :=
  c2_empty_or_invalid_behaviour.2 DecodeError.invalidDate []

/-- C3 (confirmed): on every successful run, every retained record's date
equals the canonical date; the retained records are exactly the successfully
decoded rows whose date matches (so a decoded row with a different date is
silently dropped from the output), the locations set is built from the
retained records alone (so a dropped row inserts nothing), and the reports
list only on decode failures (so a dropped row is not reported as an
error). -/
theorem c3_canonical_date_invariant (rows : List DecodedRow) (out : EngineOutput)
    (h : excel_to_csv_string rows = .ok out) :
    (∀ r ∈ out.retained, r.date = out.canonical_date) ∧
    out.retained = (okRows rows).filter (fun r => r.date == out.canonical_date) ∧
    out.locations = (out.retained.map (fun r => r.location)).toFinset ∧
    out.reports = reportsOf (rows.drop 1) := by
  obtain ⟨first, rest, rfl, hcanon, hret, hlocs, hreps, -⟩ := engine_ok_elim _ _ h
  refine ⟨?_, ?_, hlocs, ?_⟩
  · intro r hr
    rw [hret] at hr
    rcases List.mem_cons.mp hr with rfl | hr
    · exact hcanon.symm
    · have := List.of_mem_filter hr
      rw [hcanon]
      exact beq_iff_eq.mp this
  · rw [hret, hcanon]
    simp [okRows, List.filter_cons]
  · rw [hreps]
    simp [reportsOf]

/-- C3 (witness): the invariant on the spec's §8 scenario. -/
theorem c3_witness :
    (∀ r ∈ sampleOut.retained, r.date = sampleOut.canonical_date) ∧
    sampleOut.retained =
      (okRows sampleRows).filter (fun r => r.date == sampleOut.canonical_date) ∧
    sampleOut.locations = (sampleOut.retained.map (fun r => r.location)).toFinset ∧
    sampleOut.reports = reportsOf (sampleRows.drop 1) :=
  c3_canonical_date_invariant sampleRows sampleOut rfl

/-- C4 (confirmed): on every successful run the locations set equals exactly
the set of `location` values of the retained records. -/
theorem c4_locations_set (rows : List DecodedRow) (out : EngineOutput)
    (h : excel_to_csv_string rows = .ok out) :
    out.locations = (out.retained.map (fun r => r.location)).toFinset := by
  obtain ⟨first, rest, rfl, -, -, hlocs, -, -⟩ := engine_ok_elim _ _ h
  exact hlocs

/-- C4 (witness): the set equality on the spec's §8 scenario. -/
theorem c4_witness :
    sampleOut.locations = (sampleOut.retained.map (fun r => r.location)).toFinset :=
  c4_locations_set sampleRows sampleOut rfl

/-- C5 (confirmed): on every successful run the retained records, re-wrapped
as successfully decoded rows, form a sublist of the input sequence: their
positions are strictly increasing with respect to the original input, with
no reordering. -/
theorem c5_stable_subsequence (rows : List DecodedRow) (out : EngineOutput)
    (h : excel_to_csv_string rows = .ok out) :
    List.Sublist (out.retained.map Except.ok) rows := by
  obtain ⟨first, rest, rfl, -, hret, -, -, -⟩ := engine_ok_elim _ _ h
  rw [hret]
  simp only [List.map_cons]
  exact List.Sublist.cons₂ (Except.ok first) (filter_okRows_sublist _ rest)

/-- C5 (witness): the sublist relation on the spec's §8 scenario. -/
theorem c5_witness : List.Sublist (sampleOut.retained.map Except.ok) sampleRows :=
  c5_stable_subsequence sampleRows sampleOut rfl

/-- C6 (confirmed): whenever the first row decodes, the engine never aborts
on later rows: it produces a batch in which every later row that failed to
decode is reported as `(j + 2, reason)` - for the row at position `j` of the
remainder that is its 1-based index among the data rows, the numbering that
accounts for the header row - is absent from the retained output (which
keeps exactly the matching decoded rows, before and after any failure), and
processing continues to the end of the input. -/
theorem c6_report_and_continue (first : RawExcelRow) (rest : List DecodedRow) :
    ∃ out, excel_to_csv_string (.ok first :: rest) = .ok out ∧
      out.reports = reportsOf rest ∧
      out.retained = first :: (okRows rest).filter (fun r => r.date == first.date) ∧
      ∀ (j : Nat) (e : DecodeError),
        rest[j]? = some (.error e) → (j + 2, e) ∈ out.reports := by
  refine ⟨_, rfl, ?_, ?_, ?_⟩
  · simp [excel_to_csv_string, processRows_reports, reportsOf]
  · simp [excel_to_csv_string, processRows_retained]
  · intro j e hj
    simp only [excel_to_csv_string, processRows_reports]
    simpa using reportsFrom_mem rest 0 j e hj

/-- C6 (witness): on the §8 scenario's tail, the invalid fourth data row is
reported with index 4. -/
theorem c6_witness :
    ∃ out, excel_to_csv_string (.ok sampleRow1 :: sampleRest) = .ok out ∧
      out.reports = reportsOf sampleRest ∧
      out.retained =
        sampleRow1 :: (okRows sampleRest).filter (fun r => r.date == sampleRow1.date) ∧
      ∀ (j : Nat) (e : DecodeError),
        sampleRest[j]? = some (.error e) → (j + 2, e) ∈ out.reports :=
  c6_report_and_continue sampleRow1 sampleRest

/-- C7 (confirmed): the value-cell coercion `de_opt_f64` is total - by
translation it returns in every match arm, never an error: an integer cell
yields its value cast to a number, a float cell its value, and error, empty
or text cells yield absence; and the decoded row's well-formedness never
depends on the value cell. -/
theorem c7_value_coercion_total :
    (∀ i, de_opt_f64 (.Int i) = some (intToF64 i)) ∧
    (∀ f, de_opt_f64 (.Float f) = some f) ∧
    (∀ e, de_opt_f64 (.Error e) = none) ∧
    de_opt_f64 .Empty = none ∧
    (∀ s, de_opt_f64 (.String s) = none) ∧
    ∀ c₁ c₂ c₃ c₃' c₄,
      (decodeRow c₁ c₂ c₃ c₄).isOk = (decodeRow c₁ c₂ c₃' c₄).isOk := by
  refine ⟨fun _ => rfl, fun _ => rfl, fun _ => rfl, rfl, fun _ => rfl, ?_⟩
  intro c₁ c₂ c₃ c₃' c₄
  cases h₁ : asText c₁ <;> cases h₂ : asText c₂ <;> cases h₄ : de_date c₄ <;>
    simp [decodeRow, h₁, h₂, h₄, Except.isOk, Except.toBool]

/-- C8 (confirmed): on every successful run the encoded output is the header
line with the four column names in fixed order followed by one line per
retained record with fields in the same order; an absent numeric value is
rendered as an empty field (a present one never is), and dates are rendered
in the fixed zero-padded `YYYY-MM-DD` format. -/
theorem c8_encoding_format (rows : List DecodedRow) (out : EngineOutput)
    (h : excel_to_csv_string rows = .ok out) :
    out.data = String.mk ("location,metric,value,date\n".toList ++
      (out.retained.map (fun r =>
        encodeField r.location.toList ++ ',' :: encodeField r.metric.toList ++
        ',' :: encodeField (renderOptValue r.value) ++
        ',' :: encodeField (renderDate r.date) ++ ['\n'])).flatten) ∧
    renderOptValue none = [] ∧
    (∀ v, renderOptValue (some v) ≠ []) ∧
    renderDate ⟨2020, 2, 1⟩ = "2020-02-01".toList := by
  obtain ⟨first, rest, rfl, -, -, -, -, hdata⟩ := engine_ok_elim _ _ h
  refine ⟨hdata, rfl, ?_, by decide⟩
  intro v
  simp only [renderOptValue, renderInt]
  by_cases hv : v < 0
  · simp [hv]
  · simp [hv, renderNat_ne_nil]

/-- C8 (witness): the output text of the §8 scenario, with FR's absent value
as an empty field. -/
theorem c8_witness :
    sampleOut.data = String.mk ("location,metric,value,date\n".toList ++
      (sampleOut.retained.map (fun r =>
        encodeField r.location.toList ++ ',' :: encodeField r.metric.toList ++
        ',' :: encodeField (renderOptValue r.value) ++
        ',' :: encodeField (renderDate r.date) ++ ['\n'])).flatten) ∧
    renderOptValue none = [] ∧
    (∀ v, renderOptValue (some v) ≠ []) ∧
    renderDate ⟨2020, 2, 1⟩ = "2020-02-01".toList :=
  c8_encoding_format sampleRows sampleOut rfl

/-- C10 (confirmed): the value coercion yields absence on *every* cell other
than an integer or float cell - text, boolean, date-carrying, error and
empty cells alike. -/
theorem c10_value_coercion_nonnumeric :
    (∀ s, de_opt_f64 (.String s) = none) ∧
    (∀ b, de_opt_f64 (.Bool b) = none) ∧
    (∀ d, de_opt_f64 (.DateTime d) = none) ∧
    de_opt_f64 .Empty = none ∧
    (∀ e, de_opt_f64 (.Error e) = none) :=
  ⟨fun _ => rfl, fun _ => rfl, fun _ => rfl, rfl, fun _ => rfl⟩

/-! ### Round-trip lemmas -/

lemma digitChar_isDigit {n : Nat} (h : n < 10) : (Nat.digitChar n).isDigit = true := by
  interval_cases n <;> decide

lemma charVal_digitChar {n : Nat} (h : n < 10) : charVal (Nat.digitChar n) = n := by
  interval_cases n <;> decide

lemma renderNatAux_digits {fuel n : Nat} (h : n < fuel) :
    ∀ c ∈ renderNatAux fuel n, c.isDigit = true := by
  induction fuel generalizing n with
  | zero => omega
  | succ f ih =>
    intro c hc
    simp only [renderNatAux] at hc
    by_cases h10 : n < 10
    · simp only [h10, if_true, List.mem_singleton] at hc
      subst hc
      exact digitChar_isDigit h10
    · simp only [h10, if_false, List.mem_append, List.mem_singleton] at hc
      have hdiv : n / 10 < f := by
        have h1 : n / 10 < n := Nat.div_lt_self (by omega) (by omega)
        omega
      rcases hc with hc | hc
      · exact ih hdiv c hc
      · subst hc
        exact digitChar_isDigit (Nat.mod_lt n (by omega))

lemma renderNat_digits (n : Nat) : ∀ c ∈ renderNat n, c.isDigit = true :=
  renderNatAux_digits (Nat.lt_succ_self n)

lemma foldl_renderNatAux (fuel n acc : Nat) (h : n < fuel) :
    (renderNatAux fuel n).foldl (fun a c => a * 10 + charVal c) acc =
      acc * 10 ^ (renderNatAux fuel n).length + n := by
  induction fuel generalizing n acc with
  | zero => omega
  | succ f ih =>
    by_cases h10 : n < 10
    · simp [renderNatAux, h10, charVal_digitChar h10]
    · have hdiv : n / 10 < f := by
        have h1 : n / 10 < n := Nat.div_lt_self (by omega) (by omega)
        omega
      simp only [renderNatAux, h10, if_false]
      rw [List.foldl_append, ih _ _ hdiv]
      simp only [List.foldl_cons, List.foldl_nil, List.length_append, List.length_cons,
        List.length_nil, charVal_digitChar (Nat.mod_lt n (by omega))]
      rw [Nat.zero_add, pow_succ]
      calc (acc * 10 ^ (renderNatAux f (n / 10)).length + n / 10) * 10 + n % 10
          = acc * (10 ^ (renderNatAux f (n / 10)).length * 10)
            + (10 * (n / 10) + n % 10) := by ring
        _ = acc * (10 ^ (renderNatAux f (n / 10)).length * 10) + n := by
            rw [Nat.div_add_mod]

lemma parseNat_renderNat (n : Nat) : parseNat (renderNat n) = some n := by
  rw [parseNat, if_neg (renderNat_ne_nil n), if_pos]
  · have := foldl_renderNatAux (n + 1) n 0 (Nat.lt_succ_self n)
    simp only [renderNat] at this ⊢
    rw [this]
    simp
  · exact List.all_eq_true.mpr fun c hc => renderNat_digits n c hc

lemma foldl_zeros (k : Nat) (cs : List Char) :
    (List.replicate k '0' ++ cs).foldl (fun a c => a * 10 + charVal c) 0 =
      cs.foldl (fun a c => a * 10 + charVal c) 0 := by
  induction k with
  | zero => simp
  | succ k ih => simpa [List.replicate_succ, charVal] using ih

lemma padZeros_ne_nil (w : Nat) (cs : List Char) (h : cs ≠ []) : padZeros w cs ≠ [] := by
  simp [padZeros, h]

lemma padZeros_mem (w : Nat) (cs : List Char) :
    ∀ c ∈ padZeros w cs, c = '0' ∨ c ∈ cs := by
  intro c hc
  rcases List.mem_append.mp hc with hc | hc
  · exact Or.inl (List.eq_of_mem_replicate hc)
  · exact Or.inr hc

lemma parseNat_padZeros (w n : Nat) : parseNat (padZeros w (renderNat n)) = some n := by
  rw [parseNat, if_neg (padZeros_ne_nil _ _ (renderNat_ne_nil n)), if_pos]
  · rw [padZeros, foldl_zeros]
    have := foldl_renderNatAux (n + 1) n 0 (Nat.lt_succ_self n)
    simp only [renderNat] at this ⊢
    rw [this]
    simp
  · refine List.all_eq_true.mpr fun c hc => ?_
    rcases padZeros_mem _ _ c hc with rfl | hc
    · decide
    · exact renderNat_digits n c hc

lemma renderInt_ne_nil (v : Int) : renderInt v ≠ [] := by
  rw [renderInt]
  by_cases hv : v < 0
  · simp [hv]
  · simp [hv, renderNat_ne_nil]

lemma parseInt_renderInt (v : Int) : parseInt (renderInt v) = some v := by
  by_cases hv : v < 0
  · rw [renderInt, if_pos hv, parseInt]
    simp only [List.head?_cons, List.tail_cons, if_pos rfl]
    rw [parseNat_renderNat]
    simp [abs_of_neg hv]
  · rw [renderInt, if_neg hv, parseInt, if_neg]
    · rw [parseNat_renderNat]
      have hva : ((v.toNat : Nat) : Int) = v := by omega
      simp [hva]
    · intro hcontra
      rcases hl : renderNat v.toNat with _ | ⟨c, cs⟩
      · exact renderNat_ne_nil _ hl
      · rw [hl] at hcontra
        simp only [List.head?_cons, Option.some.injEq] at hcontra
        have hd := renderNat_digits v.toNat c (by rw [hl]; exact List.mem_cons_self c cs)
        rw [hcontra] at hd
        exact absurd hd (by decide)

lemma splitOnChar_no_sep (sep : Char) (xs : List Char) (h : ∀ c ∈ xs, c ≠ sep) :
    splitOnChar sep xs = [xs] := by
  induction xs with
  | nil => rfl
  | cons x xs ih =>
    have hx : x ≠ sep := h x (List.mem_cons_self x xs)
    simp only [splitOnChar, if_neg hx]
    rw [ih (fun c hc => h c (List.mem_cons_of_mem _ hc))]

lemma splitOnChar_append (sep : Char) (xs ys : List Char) (h : ∀ c ∈ xs, c ≠ sep) :
    splitOnChar sep (xs ++ sep :: ys) = xs :: splitOnChar sep ys := by
  induction xs with
  | nil => simp [splitOnChar]
  | cons x xs ih =>
    have hx : x ≠ sep := h x (List.mem_cons_self x xs)
    simp only [List.cons_append, splitOnChar, if_neg hx, List.append_eq]
    rw [ih (fun c hc => h c (List.mem_cons_of_mem _ hc))]

lemma digit_not_special (c : Char) (h : c.isDigit = true) : isSpecialChar c = false := by
  have h1 : c ≠ ',' := by rintro rfl; exact absurd h (by decide)
  have h2 : c ≠ '"' := by rintro rfl; exact absurd h (by decide)
  have h3 : c ≠ '\n' := by rintro rfl; exact absurd h (by decide)
  have h4 : c ≠ '\r' := by rintro rfl; exact absurd h (by decide)
  simp [isSpecialChar, h1, h2, h3, h4]

lemma digit_ne_dash (c : Char) (h : c.isDigit = true) : c ≠ '-' := by
  rintro rfl; exact absurd h (by decide)

lemma dash_not_special : isSpecialChar '-' = false := by decide

lemma renderInt_chars (v : Int) : ∀ c ∈ renderInt v, c.isDigit = true ∨ c = '-' := by
  intro c hc
  rw [renderInt] at hc
  by_cases hv : v < 0
  · rw [if_pos hv] at hc
    rcases List.mem_cons.mp hc with rfl | hc
    · exact Or.inr rfl
    · exact Or.inl (renderNat_digits _ c hc)
  · rw [if_neg hv] at hc
    exact Or.inl (renderNat_digits _ c hc)

lemma renderOptValue_chars (ov : Option F64) :
    ∀ c ∈ renderOptValue ov, c.isDigit = true ∨ c = '-' := by
  intro c hc
  cases ov with
  | none => simp [renderOptValue] at hc
  | some v => exact renderInt_chars v c hc

lemma padZeros_renderNat_digits (w n : Nat) :
    ∀ c ∈ padZeros w (renderNat n), c.isDigit = true := by
  intro c hc
  rcases padZeros_mem _ _ c hc with rfl | hc
  · decide
  · exact renderNat_digits n c hc

lemma renderDate_chars (dt : Date) :
    ∀ c ∈ renderDate dt, c.isDigit = true ∨ c = '-' := by
  intro c hc
  rw [renderDate, List.append_assoc, List.cons_append] at hc
  rcases List.mem_append.mp hc with hc | hc
  · exact Or.inl (padZeros_renderNat_digits _ _ c hc)
  · rcases List.mem_cons.mp hc with rfl | hc
    · exact Or.inr rfl
    · rcases List.mem_append.mp hc with hc | hc
      · exact Or.inl (padZeros_renderNat_digits _ _ c hc)
      · rcases List.mem_cons.mp hc with rfl | hc
        · exact Or.inr rfl
        · exact Or.inl (padZeros_renderNat_digits _ _ c hc)

lemma digit_or_dash_not_special (c : Char) (h : c.isDigit = true ∨ c = '-') :
    isSpecialChar c = false := by
  rcases h with h | rfl
  · exact digit_not_special c h
  · exact dash_not_special

lemma encodeField_plain (cs : List Char) (h : ∀ c ∈ cs, isSpecialChar c = false) :
    encodeField cs = cs := by
  rw [encodeField, if_neg]
  intro hany
  rw [List.any_eq_true] at hany
  obtain ⟨c, hc, hspec⟩ := hany
  rw [h c hc] at hspec
  exact Bool.false_ne_true hspec

lemma plainText_no_special (s : String) (h : plainText s = true) :
    ∀ c ∈ s.toList, isSpecialChar c = false := by
  intro c hc
  rw [plainText, Bool.not_eq_eq_eq_not, Bool.not_true, List.any_eq_false] at h
  simpa using h c hc

lemma parseDate_renderDate (dt : Date) : parseDate (renderDate dt) = some dt := by
  have hy : ∀ c ∈ padZeros 4 (renderNat dt.y), c ≠ '-' :=
    fun c hc => digit_ne_dash c (padZeros_renderNat_digits _ _ c hc)
  have hm : ∀ c ∈ padZeros 2 (renderNat dt.m), c ≠ '-' :=
    fun c hc => digit_ne_dash c (padZeros_renderNat_digits _ _ c hc)
  have hd : ∀ c ∈ padZeros 2 (renderNat dt.d), c ≠ '-' :=
    fun c hc => digit_ne_dash c (padZeros_renderNat_digits _ _ c hc)
  rw [parseDate, renderDate, List.append_assoc, List.cons_append,
    splitOnChar_append _ _ _ hy, splitOnChar_append _ _ _ hm,
    splitOnChar_no_sep _ _ hd]
  simp only [parseNat_padZeros]

lemma ne_of_not_special (c : Char) (h : isSpecialChar c = false) :
    c ≠ ',' ∧ c ≠ '"' ∧ c ≠ '\n' ∧ c ≠ '\r' := by
  refine ⟨?_, ?_, ?_, ?_⟩ <;> rintro rfl <;> exact absurd h (by decide)

lemma rowBody_split (r : RawExcelRow) (h1 : plainText r.location = true)
    (h2 : plainText r.metric = true) :
    splitOnChar ',' (rowBodyChars r) =
      [r.location.toList, r.metric.toList, renderOptValue r.value, renderDate r.date] := by
  have hel : encodeField r.location.toList = r.location.toList :=
    encodeField_plain _ (plainText_no_special _ h1)
  have hem : encodeField r.metric.toList = r.metric.toList :=
    encodeField_plain _ (plainText_no_special _ h2)
  have hev : encodeField (renderOptValue r.value) = renderOptValue r.value :=
    encodeField_plain _
      (fun c hc => digit_or_dash_not_special c (renderOptValue_chars _ c hc))
  have hed : encodeField (renderDate r.date) = renderDate r.date :=
    encodeField_plain _
      (fun c hc => digit_or_dash_not_special c (renderDate_chars _ c hc))
  have hl' : ∀ c ∈ r.location.toList, c ≠ ',' :=
    fun c hc => (ne_of_not_special c (plainText_no_special _ h1 c hc)).1
  have hm' : ∀ c ∈ r.metric.toList, c ≠ ',' :=
    fun c hc => (ne_of_not_special c (plainText_no_special _ h2 c hc)).1
  have hv' : ∀ c ∈ renderOptValue r.value, c ≠ ',' :=
    fun c hc =>
      (ne_of_not_special c (digit_or_dash_not_special c (renderOptValue_chars _ c hc))).1
  have hd' : ∀ c ∈ renderDate r.date, c ≠ ',' :=
    fun c hc =>
      (ne_of_not_special c (digit_or_dash_not_special c (renderDate_chars _ c hc))).1
  rw [rowBodyChars, hel, hem, hev, hed]
  simp only [List.append_assoc, List.cons_append]
  rw [splitOnChar_append _ _ _ hl', splitOnChar_append _ _ _ hm',
    splitOnChar_append _ _ _ hv', splitOnChar_no_sep _ _ hd']

lemma rowBody_no_newline (r : RawExcelRow) (h1 : plainText r.location = true)
    (h2 : plainText r.metric = true) : ∀ c ∈ rowBodyChars r, c ≠ '\n' := by
  intro c hc
  have hel : encodeField r.location.toList = r.location.toList :=
    encodeField_plain _ (plainText_no_special _ h1)
  have hem : encodeField r.metric.toList = r.metric.toList :=
    encodeField_plain _ (plainText_no_special _ h2)
  have hev : encodeField (renderOptValue r.value) = renderOptValue r.value :=
    encodeField_plain _
      (fun c hc => digit_or_dash_not_special c (renderOptValue_chars _ c hc))
  have hed : encodeField (renderDate r.date) = renderDate r.date :=
    encodeField_plain _
      (fun c hc => digit_or_dash_not_special c (renderDate_chars _ c hc))
  rw [rowBodyChars, hel, hem, hev, hed] at hc
  simp only [List.append_assoc, List.cons_append, List.mem_append, List.mem_cons] at hc
  rcases hc with hc | rfl | hc | rfl | hc | rfl | hc
  · exact (ne_of_not_special c (plainText_no_special _ h1 c hc)).2.2.1
  · decide
  · exact (ne_of_not_special c (plainText_no_special _ h2 c hc)).2.2.1
  · decide
  · exact (ne_of_not_special c
      (digit_or_dash_not_special c (renderOptValue_chars _ c hc))).2.2.1
  · decide
  · exact (ne_of_not_special c
      (digit_or_dash_not_special c (renderDate_chars _ c hc))).2.2.1

lemma decodeLine_rowBody (r : RawExcelRow) (h1 : plainText r.location = true)
    (h2 : plainText r.metric = true) : decodeLine (rowBodyChars r) = .ok r := by
  obtain ⟨loc, met, val, dt⟩ := r
  have hsplit := rowBody_split ⟨loc, met, val, dt⟩ h1 h2
  cases val with
  | none =>
    simp only [renderOptValue] at hsplit
    simp [decodeLine, hsplit, fieldCellText, fieldCellValue, fieldCellDate,
      parseDate_renderDate, decodeRow, asText, de_date, de_opt_f64]
  | some v =>
    simp only [renderOptValue] at hsplit
    simp [decodeLine, hsplit, fieldCellText, fieldCellValue, fieldCellDate,
      parseDate_renderDate, decodeRow, asText, de_date, de_opt_f64,
      renderInt_ne_nil v, parseInt_renderInt]

lemma splitOnChar_flatten (lines : List (List Char))
    (h : ∀ l ∈ lines, ∀ c ∈ l, c ≠ '\n') :
    splitOnChar '\n' ((lines.map (fun l => l ++ ['\n'])).flatten) = lines ++ [[]] := by
  induction lines with
  | nil => rfl
  | cons l ls ih =>
    simp only [List.map_cons, List.flatten_cons, List.append_assoc, List.singleton_append]
    rw [splitOnChar_append _ _ _ (h l (List.mem_cons_self _ _)),
      ih (fun l' hl' => h l' (List.mem_cons_of_mem _ hl'))]
    rfl

/-- C9 (confirmed): decoding the tabular encoder's own output back through
the row decoder, under the same fixed column order, reproduces the retained
record sequence exactly - including the distinction between an absent value
(empty field, read back as an empty cell) and a present one.  The reader
that retypes the CSV fields as cells is modelled from the spec; the
hypothesis restricts locations and metrics to fields that trigger no CSV
quoting, the only regime that reader models. -/
theorem c9_round_trip (rows : List DecodedRow) (out : EngineOutput)
    (h : excel_to_csv_string rows = .ok out)
    (hplain : ∀ r ∈ out.retained,
      plainText r.location = true ∧ plainText r.metric = true) :
    decodeCsv out.data = out.retained.map Except.ok := by
  obtain ⟨first, rest, rfl, -, -, -, -, hdata⟩ := engine_ok_elim _ _ h
  rw [hdata, decodeCsv]
  have htl : (String.mk (csvEncodeChars out.retained)).toList =
      csvEncodeChars out.retained := rfl
  rw [htl, csvEncodeChars]
  have hflat : (out.retained.map rowLineChars) =
      ((out.retained.map rowBodyChars).map (fun l => l ++ ['\n'])) := by
    rw [List.map_map]
    rfl
  have hheader : headerChars ++ ((out.retained.map rowBodyChars).map
        (fun l => l ++ ['\n'])).flatten =
      "location,metric,value,date".toList ++ '\n' ::
        ((out.retained.map rowBodyChars).map (fun l => l ++ ['\n'])).flatten := rfl
  rw [hflat, hheader, splitOnChar_append _ _ _ (by decide),
    splitOnChar_flatten _ ?hnl]
  case hnl =>
    intro l hl
    obtain ⟨r, hr, rfl⟩ := List.mem_map.mp hl
    exact rowBody_no_newline r (hplain r hr).1 (hplain r hr).2
  simp only [List.drop_succ_cons, List.drop_zero, List.dropLast_concat, List.map_map]
  refine List.map_congr_left fun r hr => ?_
  exact decodeLine_rowBody r (hplain r hr).1 (hplain r hr).2

/-- C9 (witness): the round trip on the spec's §8 scenario, whose two
retained records include an absent value. -/
theorem c9_witness : decodeCsv sampleOut.data = sampleOut.retained.map Except.ok :=
  c9_round_trip sampleRows sampleOut rfl (by decide)
